import Mathlib

set_option maxHeartbeats 1000000

/-!
Verification of the fairseq generation script (`generate.py`).

The script's detokenizer (`to_token`, `to_sentence`), the BPE-removal helper
(`maybe_remove_bpe_and_reindex`), the hypothesis display
(`display_hypotheses`) and the scoring loop of `main` are embedded shallowly.
Text is modelled as `List Char`; integer token tensors as `List Int`; the
mutable `non_bpe_dict` is threaded explicitly; Python assertion failures and
index errors are `Option.none`.  The BLEU scorer itself lives in the external
`fairseq.bleu` module and is modelled from the specification where noted.
-/

/-- Python `' '.join` over a list of text chunks. -/
def joinSpace : List (List Char) → List Char
  | [] => []
  | [t] => t
  | t :: ts => t ++ ' ' :: joinSpace ts

/-- Python `s.split(' ')`: cut at every single space character.  Note that
Python's split with an explicit separator never yields an empty list:
`''.split(' ') == ['']`. -/
def splitSpace : List Char → List (List Char)
  | [] => [[]]
  | c :: rest =>
    if c = ' ' then [] :: splitSpace rest
    else
      match splitSpace rest with
      | [] => [[c]]
      | t :: ts => (c :: t) :: ts

/-- Whether `p` occurs as a contiguous substring of `s`. -/
def occursIn (p : List Char) : List Char → Bool
  | [] => p.isEmpty
  | c :: rest => p.isPrefixOf (c :: rest) || occursIn p rest

/-- Helper for `replaceAll`, structurally recursive on a fuel bound.  Each
step consumes at least one character, so fuel `s.length` is never exhausted;
the fuel-out branch returns the rest unchanged. -/
def replaceAllAux (p : List Char) : Nat → List Char → List Char
  | _, [] => []
  | 0, s => s
  | fuel + 1, c :: rest =>
    if p ≠ [] ∧ p.isPrefixOf (c :: rest) then
      replaceAllAux p fuel (rest.drop (p.length - 1))
    else
      c :: replaceAllAux p fuel rest

/-- Python `s.replace(p, '')`: remove all non-overlapping occurrences of `p`,
scanning left to right.  (For the empty pattern Python's replace with an
empty replacement also returns `s` unchanged.) -/
def replaceAll (p : List Char) (s : List Char) : List Char :=
  replaceAllAux p s.length s

/-- The dictionary interface `generate.py` consumes: symbol lookup plus the
reserved padding, end-of-sequence and unknown-token ids. -/
structure Dictionary where
  symbols : Int → List Char
  pad : Int
  eos : Int
  unk : Int

/-- generate.py `to_token`: `return runk if i == dict.unk() else dict[i]`. -/
def to_token (d : Dictionary) (i : Int) (runk : List Char) : List Char :=
  if i = d.unk then runk else d.symbols i

/-- The one-dimensional body of generate.py `to_sentence`: drop every
end-of-sequence id, render each remaining id with `to_token` (the unknown id
becomes `'<{}>'.format(unk)` when `ref_unk` is set, else the literal unknown
symbol), join with single spaces, and finally remove the BPE marker from the
joined string when one is configured. -/
def to_sentence1 (d : Dictionary) (tokens : List Int) (bpe_symbol : Option (List Char))
    (ref_unk : Bool) : List Char :=
  let unk := d.symbols d.unk
  let runk := if ref_unk then ('<' :: unk) ++ ['>'] else unk
  let sent := joinSpace ((tokens.filter (fun i => i != d.eos)).map (fun i => to_token d i runk))
  match bpe_symbol with
  | none => sent
  | some p => replaceAll p sent

/-- A token tensor as passed to `to_sentence`: one- or two-dimensional. -/
inductive Tensor where
  | one : List Int → Tensor
  | two : List (List Int) → Tensor

/-- generate.py `to_sentence`.  A two-dimensional tensor is rendered row by
row and joined with newlines; note the recursive call `to_sentence(dict,
token)` passes neither `bpe_symbol` nor `ref_unk`, so the rows are rendered
with the defaults (`None`, `False`). -/
def to_sentence (d : Dictionary) (tokens : Tensor) (bpe_symbol : Option (List Char))
    (ref_unk : Bool) : List Char :=
  match tokens with
  | Tensor.two rows => List.intercalate ['\n'] (rows.map (fun row => to_sentence1 d row none false))
  | Tensor.one toks => to_sentence1 d toks bpe_symbol ref_unk

/-- The reference-mode unknown marker `'<{}>'.format(unk)`: the dictionary's
unknown symbol wrapped in angle brackets. -/
def runkMarker (d : Dictionary) : List Char := ('<' :: d.symbols d.unk) ++ ['>']

/-- All contiguous n-grams of a token sequence, in order of position. -/
def ngramsList (n : Nat) (l : List Int) : List (List Int) :=
  (List.range (l.length + 1 - n)).map (fun i => (l.drop i).take n)

/-- Modelled from the spec: the clipped n-gram matches of BLEU's modified
precision — each distinct n-gram of the hypothesis contributes its number of
occurrences in the hypothesis clipped by its number of occurrences in the
reference.  The concrete counting code is in the external `fairseq.bleu`
module (libbleu), which is not part of this repository's sources. -/
def clippedMatches (n : Nat) (refTok hypTok : List Int) : Nat :=
  (((ngramsList n hypTok).dedup).map
    (fun g => min ((ngramsList n hypTok).count g) ((ngramsList n refTok).count g))).sum

/-- Modelled from the spec: the streaming BLEU accumulator — per order
n = 1..4 the running totals of clipped matches and of hypothesis n-grams,
plus the total reference and hypothesis lengths for the brevity penalty. -/
structure BleuStat where
  match1 : Nat
  count1 : Nat
  match2 : Nat
  count2 : Nat
  match3 : Nat
  count3 : Nat
  match4 : Nat
  count4 : Nat
  reflen : Nat
  hyplen : Nat
deriving DecidableEq

/-- The all-zero initial accumulator. -/
def BleuStat.zero : BleuStat := ⟨0, 0, 0, 0, 0, 0, 0, 0, 0, 0⟩

/-- Componentwise sum of two accumulators. -/
def statAdd (a b : BleuStat) : BleuStat :=
  { match1 := a.match1 + b.match1
  , count1 := a.count1 + b.count1
  , match2 := a.match2 + b.match2
  , count2 := a.count2 + b.count2
  , match3 := a.match3 + b.match3
  , count3 := a.count3 + b.count3
  , match4 := a.match4 + b.match4
  , count4 := a.count4 + b.count4
  , reflen := a.reflen + b.reflen
  , hyplen := a.hyplen + b.hyplen }

/-- Modelled from the spec: the per-sentence contribution of one
(reference, hypothesis) pair.  The two configured ignore ids (padding and
end-of-sequence, or the sentinel −1 twice) are excluded from n-gram counting
entirely, on both sides. -/
def sentenceStat (pad eos : Int) (refTok hypTok : List Int) : BleuStat :=
  let r := refTok.filter (fun x => x != pad && x != eos)
  let h := hypTok.filter (fun x => x != pad && x != eos)
  { match1 := clippedMatches 1 r h
  , count1 := (ngramsList 1 h).length
  , match2 := clippedMatches 2 r h
  , count2 := (ngramsList 2 h).length
  , match3 := clippedMatches 3 r h
  , count3 := (ngramsList 3 h).length
  , match4 := clippedMatches 4 r h
  , count4 := (ngramsList 4 h).length
  , reflen := r.length
  , hyplen := h.length }

/-- Modelled from the spec: the `fairseq.bleu.Scorer`, constructed from two
ignore ids and holding the running corpus accumulator. -/
structure Scorer where
  pad : Int
  eos : Int
  stat : BleuStat
deriving DecidableEq

/-- Modelled from the spec: `Scorer.add(ref, hyp)` accumulates the pair's
n-gram statistics into the running corpus totals. -/
def Scorer.add (sc : Scorer) (refTok hypTok : List Int) : Scorer :=
  { sc with stat := statAdd sc.stat (sentenceStat sc.pad sc.eos refTok hypTok) }

/-- Modelled from the spec: `Scorer.result_string()` formats the corpus BLEU
report (score, per-order precisions, brevity penalty, lengths).  Every number
in the real report is a pure function of the accumulated counters, so the
floating-point formatting is abstracted by rendering the exact counters. -/
def Scorer.result_string (sc : Scorer) : String :=
  "BLEU4 " ++ toString sc.stat.match1 ++ "/" ++ toString sc.stat.count1 ++ ", "
    ++ toString sc.stat.match2 ++ "/" ++ toString sc.stat.count2 ++ ", "
    ++ toString sc.stat.match3 ++ "/" ++ toString sc.stat.count3 ++ ", "
    ++ toString sc.stat.match4 ++ "/" ++ toString sc.stat.count4
    ++ ", syslen=" ++ toString sc.stat.hyplen ++ ", reflen=" ++ toString sc.stat.reflen

/-- generate.py `main`: `bleu.Scorer(dataset.dst_dict.pad() if not
args.remove_bpe else -1, dataset.dst_dict.eos() if not args.remove_bpe else
-1)`. -/
def make_scorer (remove_bpe : Bool) (d : Dictionary) : Scorer :=
  { pad := if remove_bpe then -1 else d.pad
  , eos := if remove_bpe then -1 else d.eos
  , stat := BleuStat.zero }

/-- Folding `Scorer.add` over a list of (reference, hypothesis) pairs. -/
def scorerFold (sc : Scorer) (l : List (List Int × List Int)) : Scorer :=
  l.foldl (fun s p => Scorer.add s p.1 p.2) sc

/-- The two generation arguments the scoring loop reads. -/
structure GenArgs where
  remove_bpe : Bool
  nbest : Nat
deriving DecidableEq

/-- generate.py `main`: `bpe_symbol = '@@ ' if args.remove_bpe else None`. -/
def bpe_marker (ar : GenArgs) : Option (List Char) :=
  if ar.remove_bpe then some ("@@ ".toList) else none

/-- One decoder hypothesis: a score and a token sequence. -/
structure Hypo where
  score : Rat
  tokens : List Int
deriving DecidableEq

/-- One item yielded by `translator.generate_batched_itr`. -/
structure Translation where
  id : Int
  src : List Int
  ref : List Int
  hypos : List Hypo
deriving DecidableEq

/-- The `'S-{}\t{}'` line printed for a source sequence. -/
def sline (id : Int) (s : List Char) : List Char := ("S-" ++ toString id ++ "\t").toList ++ s

/-- The `'T-{}\t{}'` line printed for a reference sequence. -/
def tline (id : Int) (s : List Char) : List Char := ("T-" ++ toString id ++ "\t").toList ++ s

/-- The `'H-{}\t{}\t{}'` line printed for one hypothesis. -/
def hline (id : Int) (score : Rat) (s : List Char) : List Char :=
  ("H-" ++ toString id ++ "\t" ++ toString score ++ "\t").toList ++ s

/-- The lines printed by one `display_hypotheses` call. -/
structure Display where
  src_line : List Char
  ref_line : List Char
  hyp_lines : List (List Char)
deriving DecidableEq

/-- generate.py `display_hypotheses`: the source is rendered with the source
dictionary, the reference with the target dictionary and `ref_unk=True`, and
each hypothesis with the target dictionary (no `ref_unk`). -/
def display_hypotheses (dsrc ddst : Dictionary) (bpe : Option (List Char)) (id : Int)
    (src refTok : List Int) (hypos : List Hypo) : Display :=
  { src_line := sline id (to_sentence dsrc (Tensor.one src) bpe false)
  , ref_line := tline id (to_sentence ddst (Tensor.one refTok) bpe true)
  , hyp_lines := hypos.map (fun h => hline id h.score (to_sentence ddst (Tensor.one h.tokens) bpe false)) }

/-- generate.py `main`: `ref.clone().apply_(lambda x: x if x !=
dataset.dst_dict.unk() else -x)`. -/
def replace_unk (unk : Int) (l : List Int) : List Int :=
  l.map (fun x => if x != unk then x else -x)

/-- Python `non_bpe_dict.setdefault(w, len(non_bpe_dict))`, with the
insertion-ordered dict represented as the list of its keys (a word's index is
its insertion position). -/
def setdefault_index (st : List (List Char)) (w : List Char) : Nat × List (List Char) :=
  match st.findIdx? (fun x => x == w) with
  | some i => (i, st)
  | none => (st.length, st ++ [w])

/-- Reindex a list of words through `setdefault_index`, threading the dict. -/
def reindex_words : List (List Char) → List (List Char) → List Int × List (List Char)
  | st, [] => ([], st)
  | st, w :: ws =>
    let p := setdefault_index st w
    let rest := reindex_words p.2 ws
    ((p.1 : Int) :: rest.1, rest.2)

/-- generate.py `maybe_remove_bpe_and_reindex`, with the mutable closure
state `non_bpe_dict` threaded explicitly; the failing
`assert (tokens == dataset.dst_dict.pad()).sum() == 0` is `none`. -/
def maybe_remove_bpe_and_reindex (ar : GenArgs) (d : Dictionary) (nbd : List (List Char))
    (tokens : List Int) : Option (List Int × List (List Char)) :=
  if !ar.remove_bpe then some (tokens, nbd)
  else if tokens.count d.pad ≠ 0 then none
  else
    some (reindex_words nbd (splitSpace (to_sentence d (Tensor.one tokens) (bpe_marker ar) false)))

/-- What one iteration of the generation loop produces. -/
structure StepOut where
  scorer : Scorer
  nbd : List (List Char)
  pair : List Int × List Int
  disp : Display
deriving DecidableEq

/-- The score-relevant part of a step's output (everything but the display). -/
def StepOut.core (o : StepOut) : Scorer × List (List Char) × (List Int × List Int) :=
  (o.scorer, o.nbd, o.pair)

/-- One iteration of the loop body in generate.py `main`: negate the unknown
ids of the reference, take `hypos[0]` (an empty hypothesis list is an index
error, hence `none`), push both sequences through
`maybe_remove_bpe_and_reindex`, feed exactly that one pair to `scorer.add`,
and display at most `args.nbest` hypotheses. -/
def process_one (ar : GenArgs) (dsrc ddst : Dictionary) (sc : Scorer) (nbd : List (List Char))
    (tr : Translation) : Option StepOut :=
  let rref := replace_unk ddst.unk tr.ref
  match tr.hypos with
  | [] => none
  | h0 :: _ =>
    match maybe_remove_bpe_and_reindex ar ddst nbd rref with
    | none => none
    | some (rref2, nbd1) =>
      match maybe_remove_bpe_and_reindex ar ddst nbd1 h0.tokens with
      | none => none
      | some (top2, nbd2) =>
        some { scorer := Scorer.add sc rref2 top2
             , nbd := nbd2
             , pair := (rref2, top2)
             , disp := display_hypotheses dsrc ddst (bpe_marker ar) tr.id tr.src tr.ref
                  (tr.hypos.take (min tr.hypos.length ar.nbest)) }

/-- What the whole generation loop produces: the final scorer, the final
reindexing dict, the pairs that were fed to the scorer, and the displays. -/
structure LoopOut where
  scorer : Scorer
  nbd : List (List Char)
  pairs : List (List Int × List Int)
  disps : List Display
deriving DecidableEq

/-- The score-relevant part of the loop output (everything but displays). -/
def LoopOut.core (o : LoopOut) : Scorer × List (List Char) × List (List Int × List Int) :=
  (o.scorer, o.nbd, o.pairs)

/-- The `for id, src, ref, hypos in translations` loop of generate.py
`main`, over an explicit list of translations. -/
def generate_loop (ar : GenArgs) (dsrc ddst : Dictionary) :
    Scorer → List (List Char) → List Translation → Option LoopOut
  | sc, nbd, [] => some { scorer := sc, nbd := nbd, pairs := [], disps := [] }
  | sc, nbd, tr :: rest =>
    match process_one ar dsrc ddst sc nbd tr with
    | none => none
    | some o =>
      match generate_loop ar dsrc ddst o.scorer o.nbd rest with
      | none => none
      | some r =>
        some { scorer := r.scorer, nbd := r.nbd
             , pairs := o.pair :: r.pairs, disps := o.disp :: r.disps }

/-- generate.py `main` after loading: build the scorer from the remove-BPE
flag and the target dictionary and run the loop from empty state. -/
def run_generation (ar : GenArgs) (dsrc ddst : Dictionary) (trs : List Translation) :
    Option LoopOut :=
  generate_loop ar dsrc ddst (make_scorer ar.remove_bpe ddst) [] trs

/-- The part of a translation that can reach the scorer: its reference and
the token sequence of its best-ranked hypothesis. -/
def scoreProj (tr : Translation) : List Int × Option (List Int) :=
  (tr.ref, tr.hypos.head?.map Hypo.tokens)

/-- A small concrete dictionary in the fairseq layout (pad 1, eos 2, unk 3). -/
def dSyms : Int → List Char := fun i =>
  if i = 1 then "<pad>".toList
  else if i = 2 then "</s>".toList
  else if i = 3 then "<unk>".toList
  else if i = 4 then "hello".toList
  else if i = 5 then "world".toList
  else if i = 6 then "a@@".toList
  else if i = 7 then "b".toList
  else "?".toList

/-- The concrete dictionary used for witnesses and counterexamples. -/
def dictD : Dictionary := { symbols := dSyms, pad := 1, eos := 2, unk := 3 }

/-- The inverse token-string-to-id mapping of `dictD` on its word symbols. -/
def invD (w : List Char) : Int :=
  if w = "hello".toList then 4
  else if w = "world".toList then 5
  else if w = "a@@".toList then 6
  else if w = "b".toList then 7
  else -999

example : to_sentence dictD (Tensor.one [4, 5, 2]) none false = "hello world".toList := by decide
example : to_sentence dictD (Tensor.one [2]) none false = [] := by decide
example : splitSpace [] = [[]] := by decide
example : to_sentence dictD (Tensor.one [3]) none true = "<<unk>>".toList := by decide
example : to_sentence dictD (Tensor.two [[3]]) none true = "<unk>".toList := by decide
example : to_sentence dictD (Tensor.one [6, 7, 2]) (some "@@ ".toList) false = "ab".toList := by decide
example : replace_unk 3 [4, 3, 2] = [4, -3, 2] := by decide
example : List.map invD (splitSpace (to_sentence dictD (Tensor.one [4, 5, 2]) none false)) = [4, 5] := by decide

theorem splitSpace_nospace (t : List Char) (h : ' ' ∉ t) : splitSpace t = [t] := by
  induction t with
  | nil => rfl
  | cons c cs ih =>
    have hc : ¬ c = ' ' := fun e => h (e ▸ List.mem_cons_self c cs)
    have ih2 := ih (fun m => h (List.mem_cons_of_mem _ m))
    simp [splitSpace, hc, ih2]

theorem splitSpace_append (t rest : List Char) (h : ' ' ∉ t) :
    splitSpace (t ++ ' ' :: rest) = t :: splitSpace rest := by
  induction t with
  | nil => simp [splitSpace]
  | cons c cs ih =>
    have hc : ¬ c = ' ' := fun e => h (e ▸ List.mem_cons_self c cs)
    have ih2 := ih (fun m => h (List.mem_cons_of_mem _ m))
    simp [splitSpace, hc, ih2]

theorem splitSpace_joinSpace (ts : List (List Char)) (h1 : ts ≠ [])
    (h2 : ∀ t ∈ ts, ' ' ∉ t) : splitSpace (joinSpace ts) = ts := by
  induction ts with
  | nil => exact absurd rfl h1
  | cons t ts ih =>
    cases ts with
    | nil => exact splitSpace_nospace t (h2 t (List.mem_cons_self t []))
    | cons t2 rest =>
      have hj : joinSpace (t :: t2 :: rest) = t ++ ' ' :: joinSpace (t2 :: rest) := rfl
      rw [hj, splitSpace_append t _ (h2 t (List.mem_cons_self t _)),
        ih (by simp) (fun u hu => h2 u (List.mem_cons_of_mem _ hu))]

theorem replaceAllAux_no_match (p : List Char) :
    ∀ (fuel : Nat) (s : List Char), occursIn p s = false → replaceAllAux p fuel s = s := by
  intro fuel
  induction fuel with
  | zero => intro s _; cases s <;> rfl
  | succ n ih =>
    intro s h
    cases s with
    | nil => rfl
    | cons c rest =>
      simp only [occursIn, Bool.or_eq_false_iff] at h
      simp [replaceAllAux, h.1, ih rest h.2]

theorem replaceAll_no_match (p s : List Char) (h : occursIn p s = false) :
    replaceAll p s = s :=
  replaceAllAux_no_match p s.length s h

/-- C5: the BLEU scorer's two ignore ids are the target dictionary's padding
and end-of-sequence ids when BPE removal is disabled, and the sentinel −1
twice when it is enabled; given the dictionary, the choice is determined
solely by the remove-BPE flag. -/
theorem claim_scorer_ignore_ids (b : Bool) (d : Dictionary) :
    ((make_scorer b d).pad, (make_scorer b d).eos) = (if b then (-1, -1) else (d.pad, d.eos))
    ∧ (make_scorer false d).pad = d.pad ∧ (make_scorer false d).eos = d.eos
    ∧ (make_scorer true d).pad = -1 ∧ (make_scorer true d).eos = -1 := by
  cases b <;> simp [make_scorer]

/-- C7: on a one-dimensional input `to_sentence` joins the rendered tokens
with single spaces, and when a merge marker is configured it removes that
substring from the already-joined string afterwards — a purely textual pass
on the joined string, after the id-to-string mapping. -/
theorem claim_join_then_strip (d : Dictionary) (toks : List Int) (p : List Char) (r : Bool) :
    to_sentence d (Tensor.one toks) (some p) r
      = replaceAll p (to_sentence d (Tensor.one toks) none r)
    ∧ to_sentence d (Tensor.one toks) none r
      = joinSpace ((toks.filter (fun i => i != d.eos)).map
          (fun i => to_token d i (if r then runkMarker d else d.symbols d.unk))) :=
  ⟨rfl, rfl⟩

/-- C3 counterexample: with `ref_unk` enabled the unknown id is rendered as
the constant `'<{}>'.format(unk)` — the dictionary's unknown symbol wrapped
in angle brackets.  For `dictD` this is the digit-free string `<<unk>>`: it
cannot embed the original raw id of the word the unknown token stood for (an
id the renderer is not even given — the reference sequence only carries the
unknown id itself). -/
theorem claim_ref_marker_cex :
    to_sentence dictD (Tensor.one [(3 : Int)]) none true = runkMarker dictD
    ∧ runkMarker dictD = "<<unk>>".toList
    ∧ (runkMarker dictD).all (fun c => !c.isDigit) = true := by
  refine ⟨by decide, by decide, by decide⟩

/-- C3 (amended): when rendering a reference sequence for diagnostic display
(`ref_unk` enabled), every occurrence of the unknown-token id is substituted
by the marker form `'<' ++ unknown symbol ++ '>'` — the dictionary's literal
unknown symbol wrapped in angle brackets; the marker does not embed the
original raw id of the word the unknown token stood for. -/
theorem claim_ref_marker (d : Dictionary) (toks : List Int) :
    (to_sentence d (Tensor.one toks) none true
      = joinSpace ((toks.filter (fun i => i != d.eos)).map
          (fun i => if i = d.unk then runkMarker d else d.symbols i)))
    ∧ ∀ p, to_sentence d (Tensor.one toks) (some p) true
        = replaceAll p (to_sentence d (Tensor.one toks) none true) :=
  ⟨rfl, fun _ => rfl⟩

/-- C4 counterexample: a two-dimensional input is not rendered with the same
settings as the outer call — here the outer call has `ref_unk` enabled, yet
the row is rendered with the defaults, so the unknown id comes out as the
literal symbol instead of the marker form. -/
theorem claim_rowwise_cex :
    to_sentence dictD (Tensor.two [[(3 : Int)]]) none true
      ≠ List.intercalate ['\n']
          (List.map (fun row => to_sentence dictD (Tensor.one row) none true) [[(3 : Int)]]) := by
  decide

/-- C4 (amended): a two-dimensional input is rendered row-wise and joined by
newlines, each row converted with the same dictionary but with the default
settings — no merge-marker removal and no reference unknown marker —
regardless of the outer call's `bpe_symbol` and `ref_unk` arguments. -/
theorem claim_rowwise (d : Dictionary) (rows : List (List Int))
    (bpe : Option (List Char)) (r : Bool) :
    to_sentence d (Tensor.two rows) bpe r
      = List.intercalate ['\n']
          (rows.map (fun row => to_sentence d (Tensor.one row) none false)) :=
  rfl

/-- C6: `display_hypotheses` renders every hypothesis line (and the source
line) with `ref_unk` disabled, and with `ref_unk` disabled the unknown id is
rendered as the dictionary's literal unknown symbol, which is never the
marker form (the marker is two characters longer). -/
theorem claim_hyp_literal_unk (dsrc ddst : Dictionary) (bpe : Option (List Char)) (id : Int)
    (src refTok : List Int) (hypos : List Hypo) :
    (display_hypotheses dsrc ddst bpe id src refTok hypos).hyp_lines
      = hypos.map (fun h => hline id h.score (to_sentence ddst (Tensor.one h.tokens) bpe false))
    ∧ (display_hypotheses dsrc ddst bpe id src refTok hypos).src_line
      = sline id (to_sentence dsrc (Tensor.one src) bpe false)
    ∧ (∀ (d : Dictionary) (toks : List Int),
        to_sentence d (Tensor.one toks) none false
          = joinSpace ((toks.filter (fun i => i != d.eos)).map
              (fun i => to_token d i (d.symbols d.unk))))
    ∧ (∀ (d : Dictionary) (toks : List Int) (p : List Char),
        to_sentence d (Tensor.one toks) (some p) false
          = replaceAll p (to_sentence d (Tensor.one toks) none false))
    ∧ (∀ d : Dictionary, to_token d d.unk (d.symbols d.unk) = d.symbols d.unk)
    ∧ (∀ d : Dictionary, d.symbols d.unk ≠ runkMarker d) := by
  refine ⟨rfl, rfl, fun d toks => rfl, fun d toks p => rfl, fun d => by simp [to_token],
    fun d => fun he => ?_⟩
  have hlen := congrArg List.length he
  simp only [runkMarker, List.length_append, List.length_cons, List.length_singleton] at hlen
  omega

theorem statAdd_right_comm (s a b : BleuStat) :
    statAdd (statAdd s a) b = statAdd (statAdd s b) a := by
  cases s; cases a; cases b
  simp only [statAdd, BleuStat.mk.injEq]
  omega

theorem scorer_add_right_comm (sc : Scorer) (r1 h1 r2 h2 : List Int) :
    (sc.add r1 h1).add r2 h2 = (sc.add r2 h2).add r1 h1 := by
  cases sc
  simp only [Scorer.add]
  exact congrArg _ (statAdd_right_comm _ _ _)

theorem scorerFold_perm {l1 l2 : List (List Int × List Int)} (h : List.Perm l1 l2) :
    ∀ sc : Scorer, scorerFold sc l1 = scorerFold sc l2 := by
  induction h with
  | nil => intro sc; rfl
  | cons x _ ih => intro sc; exact ih (sc.add x.1 x.2)
  | swap x y l => intro sc
                  show scorerFold ((sc.add y.1 y.2).add x.1 x.2) l
                    = scorerFold ((sc.add x.1 x.2).add y.1 y.2) l
                  rw [scorer_add_right_comm]
  | trans _ _ ih1 ih2 => intro sc; exact (ih1 sc).trans (ih2 sc)

/-- C1: for a fixed multiset of (reference, hypothesis) pairs the final
`result_string` is independent of the order in which `Scorer.add` is called;
in particular `add(r1,h1); add(r2,h2)` and `add(r2,h2); add(r1,h1)` report
the same corpus result. -/
theorem claim_bleu_order_independence :
    (∀ (sc : Scorer) (l1 l2 : List (List Int × List Int)), List.Perm l1 l2 →
      Scorer.result_string (scorerFold sc l1) = Scorer.result_string (scorerFold sc l2))
    ∧ ∀ (sc : Scorer) (r1 h1 r2 h2 : List Int),
      Scorer.result_string ((sc.add r1 h1).add r2 h2)
        = Scorer.result_string ((sc.add r2 h2).add r1 h1) :=
  ⟨fun sc _ _ h => congrArg Scorer.result_string (scorerFold_perm h sc),
   fun sc r1 h1 r2 h2 => congrArg Scorer.result_string (scorer_add_right_comm sc r1 h1 r2 h2)⟩

/-- Witness for C1 at a concrete two-pair corpus. -/
theorem claim_bleu_order_independence_witness :
    Scorer.result_string (scorerFold (make_scorer false dictD) [([4, 5, 2], [4, 7, 2]), ([5, 2], [5, 2])])
      = Scorer.result_string (scorerFold (make_scorer false dictD) [([5, 2], [5, 2]), ([4, 5, 2], [4, 7, 2])]) :=
  claim_bleu_order_independence.1 (make_scorer false dictD) _ _ (by decide)

/-- C2 counterexample: a token sequence consisting only of end-of-sequence
ids satisfies the claim's hypotheses (no unknown ids, no merge tokens) but
does not round-trip: `to_sentence` yields the empty string, Python's
`''.split(' ')` is `['']`, so the re-tokenized list has one junk entry while
the eos-stripped original is empty. -/
theorem claim_roundtrip_cex :
    List.map invD (splitSpace (to_sentence dictD (Tensor.one [(2 : Int)]) none false))
      ≠ List.filter (fun i => i != dictD.eos) [(2 : Int)] := by
  decide

/-- C2 (amended): for a token sequence with no unknown-token id, no
subword-merge-marker occurrence in its rendering, and at least one token that
is not end-of-sequence, splitting the `to_sentence` output on single spaces
and mapping each token string through the dictionary's inverse mapping
reproduces the original sequence with all end-of-sequence ids removed
(assuming the rendered symbols are space-free and the inverse mapping inverts
the dictionary on the sequence's ids). -/
theorem claim_roundtrip (d : Dictionary) (inv : List Char → Int) (toks : List Int)
    (bpe : Option (List Char)) (r : Bool)
    (hunk : ∀ i ∈ toks, i ≠ d.unk)
    (hinv : ∀ i ∈ toks, i ≠ d.eos → inv (d.symbols i) = i)
    (hsp : ∀ i ∈ toks, i ≠ d.eos → ' ' ∉ d.symbols i)
    (hbpe : ∀ p, bpe = some p →
      occursIn p (joinSpace ((toks.filter (fun i => i != d.eos)).map d.symbols)) = false)
    (hne : toks.filter (fun i => i != d.eos) ≠ []) :
    List.map inv (splitSpace (to_sentence d (Tensor.one toks) bpe r))
      = toks.filter (fun i => i != d.eos) := by
  have hmemF : ∀ i ∈ toks.filter (fun i => i != d.eos), i ∈ toks ∧ i ≠ d.eos := by
    intro i hi
    have h2 := List.mem_filter.1 hi
    exact ⟨h2.1, by simpa using h2.2⟩
  have hrender : ∀ runk : List Char,
      (toks.filter (fun i => i != d.eos)).map (fun i => to_token d i runk)
        = (toks.filter (fun i => i != d.eos)).map d.symbols := by
    intro runk
    apply List.map_congr_left
    intro i hi
    have : i ≠ d.unk := hunk i (hmemF i hi).1
    simp [to_token, this]
  have hFne : (toks.filter (fun i => i != d.eos)).map d.symbols ≠ [] := by
    intro h0
    exact hne (by simpa using congrArg List.length h0)
  have hFsp : ∀ t ∈ (toks.filter (fun i => i != d.eos)).map d.symbols, ' ' ∉ t := by
    intro t ht
    obtain ⟨i, hi, rfl⟩ := List.mem_map.1 ht
    exact hsp i (hmemF i hi).1 (hmemF i hi).2
  have hsplit := splitSpace_joinSpace _ hFne hFsp
  have hfinal : List.map inv ((toks.filter (fun i => i != d.eos)).map d.symbols)
      = toks.filter (fun i => i != d.eos) := by
    rw [List.map_map]
    have hcg : ∀ i ∈ toks.filter (fun i => i != d.eos), (inv ∘ d.symbols) i = i :=
      fun i hi => hinv i (hmemF i hi).1 (hmemF i hi).2
    rw [List.map_congr_left hcg]
    simp
  cases bpe with
  | none =>
    have hsent : to_sentence d (Tensor.one toks) none r
        = joinSpace ((toks.filter (fun i => i != d.eos)).map d.symbols) := by
      show joinSpace _ = _
      rw [hrender]
    rw [hsent, hsplit, hfinal]
  | some p =>
    have hsent : to_sentence d (Tensor.one toks) (some p) r
        = joinSpace ((toks.filter (fun i => i != d.eos)).map d.symbols) := by
      show replaceAll p (joinSpace _) = _
      rw [hrender]
      exact replaceAll_no_match p _ (hbpe p rfl)
    rw [hsent, hsplit, hfinal]

/-- Witness for C2 (amended) at a concrete sequence with a BPE marker
configured. -/
theorem claim_roundtrip_witness :
    List.map invD (splitSpace (to_sentence dictD (Tensor.one [4, 5, 2]) (some "@@ ".toList) false))
      = List.filter (fun i => i != dictD.eos) [4, 5, 2] :=
  claim_roundtrip dictD invD [4, 5, 2] (some "@@ ".toList) false (by decide) (by decide)
    (by decide) (by intro p hp; cases hp; decide) (by decide)

theorem replace_unk_eq_map (u : Int) (l : List Int) :
    replace_unk u l = l.map (fun x => if x = u then -x else x) := by
  apply List.map_congr_left
  intro x _
  by_cases hx : x = u <;> simp [hx]

theorem unk_not_mem_replace (u : Int) (hu : u ≠ 0) (l : List Int) :
    u ∉ replace_unk u l := by
  intro hmem
  simp only [replace_unk, List.mem_map] at hmem
  obtain ⟨x, _, he⟩ := hmem
  by_cases hxu : x = u
  · subst hxu
    simp only [bne_self_eq_false, Bool.false_eq_true, if_false] at he
    omega
  · have hb : (x != u) = true := by simp [hxu]
    rw [if_pos hb] at he
    exact hxu he

theorem ngram_mem_subset {n : Nat} {l g : List Int} (hg : g ∈ ngramsList n l) :
    ∀ x ∈ g, x ∈ l := by
  simp only [ngramsList, List.mem_map, List.mem_range] at hg
  obtain ⟨i, _, rfl⟩ := hg
  intro x hx
  exact List.drop_subset i l (List.take_subset n _ hx)

/-- C9: the loop negates every occurrence of the unknown id in the reference
(leaving all other ids unchanged) before the reference reaches the scorer;
with the non-BPE path the scorer therefore receives exactly this negated
reference, and — the unknown id being positive — no n-gram of the (possibly
filtered) negated reference can contain the unknown id, so an unknown token
in the hypothesis is never counted as a match against one in the
reference. -/
theorem claim_ref_unk_negation (ar : GenArgs) (dsrc ddst : Dictionary) (sc : Scorer)
    (nbd : List (List Char)) (tr : Translation)
    (hbpe : ar.remove_bpe = false) (hhyp : tr.hypos ≠ []) :
    replace_unk ddst.unk tr.ref = tr.ref.map (fun x => if x = ddst.unk then -x else x)
    ∧ Option.map (fun o => o.pair.1) (process_one ar dsrc ddst sc nbd tr)
        = some (replace_unk ddst.unk tr.ref)
    ∧ (0 < ddst.unk → ddst.unk ∉ replace_unk ddst.unk tr.ref)
    ∧ (0 < ddst.unk → ∀ (q : Int → Bool) (n : Nat) (g : List Int),
        g ∈ ngramsList n ((replace_unk ddst.unk tr.ref).filter q) → ddst.unk ∉ g) := by
  refine ⟨replace_unk_eq_map _ _, ?_, ?_, ?_⟩
  case refine_2 =>
    intro hu
    have hz : ddst.unk ≠ 0 := by omega
    exact unk_not_mem_replace ddst.unk hz tr.ref
  · cases hh : tr.hypos with
    | nil => exact absurd hh hhyp
    | cons h0 hs => simp [process_one, hh, maybe_remove_bpe_and_reindex, hbpe]
  · intro hu q n g hg hmem
    have hx := ngram_mem_subset hg _ hmem
    have hz : ddst.unk ≠ 0 := by omega
    exact unk_not_mem_replace ddst.unk hz tr.ref (List.mem_of_mem_filter hx)

/-- Witness for C9 on a concrete translation whose reference contains the
unknown id. -/
theorem claim_ref_unk_negation_witness :
    Option.map (fun o => o.pair.1)
      (process_one ⟨false, 1⟩ dictD dictD (make_scorer false dictD) []
        ⟨0, [4, 2], [4, 3, 2], [⟨1, [4, 3, 2]⟩]⟩)
      = some (replace_unk dictD.unk [4, 3, 2]) :=
  (claim_ref_unk_negation ⟨false, 1⟩ dictD dictD (make_scorer false dictD) []
    ⟨0, [4, 2], [4, 3, 2], [⟨1, [4, 3, 2]⟩]⟩ rfl (by decide)).2.1

/-- C10: with BPE removal disabled `maybe_remove_bpe_and_reindex` is the
identity (tokens and reindexing state unchanged); with it enabled, the
assertion only checks that the input contains no padding id, so on any
pad-free input the function returns normally. -/
theorem claim_maybe_remove (ar : GenArgs) (d : Dictionary) (nbd : List (List Char))
    (toks : List Int) :
    (ar.remove_bpe = false → maybe_remove_bpe_and_reindex ar d nbd toks = some (toks, nbd))
    ∧ (ar.remove_bpe = true → toks.count d.pad = 0 →
        (maybe_remove_bpe_and_reindex ar d nbd toks).isSome = true) := by
  constructor
  · intro h
    simp [maybe_remove_bpe_and_reindex, h]
  · intro h hc
    simp [maybe_remove_bpe_and_reindex, h, hc]

/-- Witness for C10 in both modes on a concrete pad-free input. -/
theorem claim_maybe_remove_witness :
    maybe_remove_bpe_and_reindex ⟨false, 1⟩ dictD [] [4, 5] = some ([4, 5], [])
    ∧ (maybe_remove_bpe_and_reindex ⟨true, 1⟩ dictD [] [4, 5]).isSome = true :=
  ⟨(claim_maybe_remove ⟨false, 1⟩ dictD [] [4, 5]).1 rfl,
   (claim_maybe_remove ⟨true, 1⟩ dictD [] [4, 5]).2 rfl (by decide)⟩

theorem process_one_core_congr (ar : GenArgs) (dsrc ddst : Dictionary) (sc : Scorer)
    (nbd : List (List Char)) {trA trB : Translation} (h : scoreProj trA = scoreProj trB) :
    Option.map StepOut.core (process_one ar dsrc ddst sc nbd trA)
      = Option.map StepOut.core (process_one ar dsrc ddst sc nbd trB) := by
  have href : trA.ref = trB.ref := congrArg Prod.fst h
  have hhd : trA.hypos.head?.map Hypo.tokens = trB.hypos.head?.map Hypo.tokens :=
    congrArg Prod.snd h
  cases hA : trA.hypos with
  | nil =>
    cases hB : trB.hypos with
    | nil => simp [process_one, hA, hB]
    | cons b bs => rw [hA, hB] at hhd; simp at hhd
  | cons a as =>
    cases hB : trB.hypos with
    | nil => rw [hA, hB] at hhd; simp at hhd
    | cons b bs =>
      rw [hA, hB] at hhd
      simp only [List.head?_cons, Option.map_some'] at hhd
      have htok : a.tokens = b.tokens := by simpa using hhd
      simp only [process_one, hA, hB, href, htok]
      cases hM : maybe_remove_bpe_and_reindex ar ddst nbd (replace_unk ddst.unk trB.ref) with
      | none => simp [hM]
      | some pr =>
        obtain ⟨rref2, nbd1⟩ := pr
        cases hM2 : maybe_remove_bpe_and_reindex ar ddst nbd1 b.tokens with
        | none => simp [hM, hM2]
        | some pr2 =>
          obtain ⟨top2, nbd2⟩ := pr2
          simp [hM, hM2, StepOut.core]

theorem generate_loop_core_congr (ar : GenArgs) (dsrc ddst : Dictionary) :
    ∀ (trsA trsB : List Translation) (sc : Scorer) (nbd : List (List Char)),
    trsA.map scoreProj = trsB.map scoreProj →
    Option.map LoopOut.core (generate_loop ar dsrc ddst sc nbd trsA)
      = Option.map LoopOut.core (generate_loop ar dsrc ddst sc nbd trsB) := by
  intro trsA
  induction trsA with
  | nil =>
    intro trsB sc nbd h
    cases trsB with
    | nil => rfl
    | cons b bs => simp at h
  | cons a as ih =>
    intro trsB sc nbd h
    cases trsB with
    | nil => simp at h
    | cons b bs =>
      simp only [List.map_cons, List.cons.injEq] at h
      have hstep := process_one_core_congr ar dsrc ddst sc nbd h.1
      simp only [generate_loop]
      cases hA : process_one ar dsrc ddst sc nbd a with
      | none =>
        rw [hA] at hstep
        cases hB : process_one ar dsrc ddst sc nbd b with
        | none => simp [hA, hB]
        | some oB => rw [hB] at hstep; simp at hstep
      | some oA =>
        rw [hA] at hstep
        cases hB : process_one ar dsrc ddst sc nbd b with
        | none => rw [hB] at hstep; simp at hstep
        | some oB =>
          rw [hB] at hstep
          have hcore : StepOut.core oA = StepOut.core oB := by simpa using hstep
          have hsc : oA.scorer = oB.scorer := congrArg Prod.fst hcore
          have htl := congrArg Prod.snd hcore
          have hnbd : oA.nbd = oB.nbd := congrArg Prod.fst htl
          have hpair : oA.pair = oB.pair := congrArg Prod.snd htl
          have hrec := ih bs oA.scorer oA.nbd h.2
          rw [hsc, hnbd] at hrec
          cases hRA : generate_loop ar dsrc ddst oB.scorer oB.nbd as with
          | none =>
            rw [hRA] at hrec
            cases hRB : generate_loop ar dsrc ddst oB.scorer oB.nbd bs with
            | none => simp [hA, hB, hsc, hnbd, hRA, hRB]
            | some rB => rw [hRB] at hrec; simp at hrec
          | some rA =>
            rw [hRA] at hrec
            cases hRB : generate_loop ar dsrc ddst oB.scorer oB.nbd bs with
            | none => rw [hRB] at hrec; simp at hrec
            | some rB =>
              rw [hRB] at hrec
              have hrcore : LoopOut.core rA = LoopOut.core rB := by simpa using hrec
              have hr1 : rA.scorer = rB.scorer := congrArg Prod.fst hrcore
              have hrtl := congrArg Prod.snd hrcore
              have hr2 : rA.nbd = rB.nbd := congrArg Prod.fst hrtl
              have hr3 : rA.pairs = rB.pairs := congrArg Prod.snd hrtl
              simp [hA, hB, hsc, hnbd, hRA, hRB, LoopOut.core, hr1, hr2, hr3, hpair]

theorem process_one_disp_bound (ar : GenArgs) (dsrc ddst : Dictionary) (sc : Scorer)
    (nbd : List (List Char)) (tr : Translation) (o : StepOut)
    (h : process_one ar dsrc ddst sc nbd tr = some o) :
    o.disp.hyp_lines.length ≤ ar.nbest := by
  cases hA : tr.hypos with
  | nil => simp [process_one, hA] at h
  | cons a as =>
    cases hM : maybe_remove_bpe_and_reindex ar ddst nbd (replace_unk ddst.unk tr.ref) with
    | none => simp [process_one, hA, hM] at h
    | some pr =>
      obtain ⟨rref2, nbd1⟩ := pr
      cases hM2 : maybe_remove_bpe_and_reindex ar ddst nbd1 a.tokens with
      | none => simp [process_one, hA, hM, hM2] at h
      | some pr2 =>
        obtain ⟨top2, nbd2⟩ := pr2
        simp only [process_one, hA, hM, hM2, Option.some.injEq] at h
        rw [← h]
        simp only [display_hypotheses, List.length_map, List.length_take]
        omega

theorem generate_loop_count (ar : GenArgs) (dsrc ddst : Dictionary) :
    ∀ (trs : List Translation) (sc : Scorer) (nbd : List (List Char)) (o : LoopOut),
    generate_loop ar dsrc ddst sc nbd trs = some o →
    o.pairs.length = trs.length ∧ ∀ b ∈ o.disps, b.hyp_lines.length ≤ ar.nbest := by
  intro trs
  induction trs with
  | nil =>
    intro sc nbd o h
    simp only [generate_loop, Option.some.injEq] at h
    rw [← h]
    simp
  | cons a as ih =>
    intro sc nbd o h
    cases hA : process_one ar dsrc ddst sc nbd a with
    | none => simp [generate_loop, hA] at h
    | some o1 =>
      cases hR : generate_loop ar dsrc ddst o1.scorer o1.nbd as with
      | none => simp [generate_loop, hA, hR] at h
      | some r =>
        simp only [generate_loop, hA, hR, Option.some.injEq] at h
        have hrec := ih o1.scorer o1.nbd r hR
        rw [← h]
        constructor
        · simp [hrec.1]
        · intro b hb
          simp only [List.mem_cons] at hb
          cases hb with
          | inl he => rw [he]; exact process_one_disp_bound ar dsrc ddst sc nbd a o1 hA
          | inr hm => exact hrec.2 b hm

/-- C8: only a translation's reference and best-ranked hypothesis can reach
the scorer — two translation lists that agree pointwise on
`(ref, hypos[0].tokens)` yield identical scorer states, reindex dicts and
scored-pair traces, so hypotheses at ranks 2..k never influence the corpus
score — and a successful run feeds the scorer exactly one pair per sentence
and displays at most `args.nbest` hypotheses per sentence. -/
theorem claim_top_hypothesis_scoring (ar : GenArgs) (dsrc ddst : Dictionary) (sc : Scorer)
    (nbd : List (List Char)) (trsA trsB : List Translation) :
    (trsA.map scoreProj = trsB.map scoreProj →
      Option.map LoopOut.core (generate_loop ar dsrc ddst sc nbd trsA)
        = Option.map LoopOut.core (generate_loop ar dsrc ddst sc nbd trsB))
    ∧ (∀ o, generate_loop ar dsrc ddst sc nbd trsA = some o →
        o.pairs.length = trsA.length ∧ ∀ b ∈ o.disps, b.hyp_lines.length ≤ ar.nbest) :=
  ⟨fun h => generate_loop_core_congr ar dsrc ddst trsA trsB sc nbd h,
   fun o h => generate_loop_count ar dsrc ddst trsA sc nbd o h⟩

/-- Witness for C8: two concrete one-sentence corpora differing only in a
rank-2 hypothesis produce the same scorer-relevant output. -/
theorem claim_top_hypothesis_scoring_witness :
    Option.map LoopOut.core
      (generate_loop ⟨false, 1⟩ dictD dictD (make_scorer false dictD) []
        [⟨0, [4, 2], [4, 5, 2], [⟨1, [4, 5, 2]⟩, ⟨0, [5, 2]⟩]⟩])
      = Option.map LoopOut.core
          (generate_loop ⟨false, 1⟩ dictD dictD (make_scorer false dictD) []
            [⟨0, [4, 2], [4, 5, 2], [⟨1, [4, 5, 2]⟩, ⟨2, [7, 2]⟩]⟩]) :=
  (claim_top_hypothesis_scoring ⟨false, 1⟩ dictD dictD (make_scorer false dictD) []
    [⟨0, [4, 2], [4, 5, 2], [⟨1, [4, 5, 2]⟩, ⟨0, [5, 2]⟩]⟩]
    [⟨0, [4, 2], [4, 5, 2], [⟨1, [4, 5, 2]⟩, ⟨2, [7, 2]⟩]⟩]).1 (by decide)
